import Mathlib

/-!
Verification of the curbside traversal engine (curbside.go) against its
natural-language specification.

The Go program crawls a remote tree of "secret" fragments: each fetched node
descriptor carries a self-reported id, a depth, a secret fragment (sentinel
"no" meaning the node is internal), an optional diagnostic message and a list
of child identifiers ("next", which on the wire may be a bare string or a
list).  Completed fetches are collected into a map keyed by parent identifier
and the output is reconstructed at the end by a depth-first walk that sorts
each bucket by order index.

This file is a shallow embedding of that program:

* the wire body of one HTTP response is `WireBody` (fields are `Option`s,
  mirroring which JSON fields are present); the `next` field's dual wire form
  is `NextRaw`;
* `fetchID` embeds the pure tail of the Go function of the same name
  (lines 108-144): network errors, unreadable bodies and non-200 statuses are
  collapsed into the server function returning `none` (all of them panic in
  the Go code before the body is interpreted), then the body is lowercased
  (`bytes.ToLower`, line 132, modelled by `toLowerStr` on every string
  value — ASCII suffices for every input used here) and unmarshalled into a
  `CurbIDResponse` whose `Secret` field was pre-initialised to "no"
  (lines 134-142);
* `crawl`'s collection loop (lines 161-199) becomes `crawlLoop`, a function
  of a fuel bound and an adversarial choice sequence that decides which
  in-flight fetch's result is consumed next — every completion order of the
  Go results channel is one choice sequence; Go panics become
  `Except.error`;
* `readSecretsMap` (lines 146-158) is embedded with a fuel argument (the Go
  recursion has no bound and diverges on cyclic id references; fuel `0`
  models that cut-off).  Go's `sort.Slice` by `OrderIndex <` is embedded as
  an insertion sort by `OrderIndex ≤`; `sort.Slice` is unspecified on ties,
  and the two agree whenever the bucket's order indexes are distinct;
* the concurrency-admission discipline of `requestsChan` (capacity 16,
  lines 59-60, 189, 194-197) is modelled separately as a small-step
  transition relation `CStep` on `CState`, with reachability predicate
  `CReachable`, used for the concurrency-cap claim.

A map key that was never appended to and a key absent from the Go map both
yield an empty bucket, for which the walk emits nothing; `SecretsMap` is
therefore a total function defaulting to `[]` (the Go map's zero value).
-/

namespace Curbside

/-- Go `bytes.ToLower` on one string value (line 132): lowercase every
character.  (Defined via the character list rather than `String.toLower` so
that concrete instances compute by `rfl`; the two agree character for
character.) -/
def toLowerStr (s : String) : String := String.mk (s.data.map Char.toLower)

/-- One recorded entry of the aggregation map: the Go `Secret` struct
(lines 50-54). -/
structure Secret where
  ID : String
  Value : String
  OrderIndex : Nat
deriving DecidableEq

/-- The decoded node descriptor: the Go `CurbIDResponse` struct (lines 18-26).
`ParentID` and `OrderIndex` are set by the engine at schedule time, not
decoded from the wire. -/
structure CurbIDResponse where
  ID : String
  Depth : Int
  Secret : String
  Message : String
  Next : List String
  ParentID : String
  OrderIndex : Nat
deriving DecidableEq

/-- The wire form of the "next" field: a JSON list of strings, a bare JSON
string, or any other JSON value (on which both unmarshal attempts of
`NextWrapper.UnmarshalJSON` fail). -/
inductive NextRaw where
  | list (l : List String)
  | str (s : String)
  | other
deriving DecidableEq

/-- Go `NextWrapper.UnmarshalJSON` (lines 32-48): try to decode a list of
strings; failing that, decode a bare string into a one-element list; failing
that, report the error. -/
def decodeNextWrapper : NextRaw → Option (List String)
  | NextRaw.list l => some l
  | NextRaw.str s => some [s]
  | NextRaw.other => none

/-- The JSON body of one node response, field by field; `none` means the
field is absent from the JSON object. -/
structure WireBody where
  id : Option String
  depth : Option Int
  secret : Option String
  message : Option String
  next : Option NextRaw
deriving DecidableEq

/-- Go `bytes.ToLower` applied to the serialized body (line 132) lowercases
every string in it; on the structured body that is every string value
(field names are structural here, so lowercasing them is invisible). -/
def lowerNextRaw : NextRaw → NextRaw
  | NextRaw.list l => NextRaw.list (l.map toLowerStr)
  | NextRaw.str s => NextRaw.str (toLowerStr s)
  | NextRaw.other => NextRaw.other

/-- Lowercasing of the whole body (line 132). -/
def lowerBody (w : WireBody) : WireBody :=
  ⟨w.id.map toLowerStr, w.depth, w.secret.map toLowerStr,
    w.message.map toLowerStr, w.next.map lowerNextRaw⟩

/-- Go `json.Unmarshal(body, &idResponse)` with the pre-initialisation of
lines 134-137: `Secret` starts as "no", `ParentID` and `OrderIndex` are the
schedule-time arguments, every absent field keeps its zero value (`ID` "",
`Depth` 0, `Message` "", `Next` empty).  A present `next` field that decodes
to neither a list nor a string makes the whole unmarshal fail (line 140's
panic → `none`). -/
def unmarshalBody (w : WireBody) (parentID : String) (orderIndex : Nat) :
    Option CurbIDResponse :=
  match w.next with
  | none =>
      some ⟨w.id.getD "", w.depth.getD 0, w.secret.getD "no",
        w.message.getD "", [], parentID, orderIndex⟩
  | some nr =>
      match decodeNextWrapper nr with
      | none => none
      | some ids =>
          some ⟨w.id.getD "", w.depth.getD 0, w.secret.getD "no",
            w.message.getD "", ids, parentID, orderIndex⟩

/-- Go `fetchID` (lines 108-144): the server function stands for the network
round trip; it returns `none` on any of the panics of lines 111-130
(request error, network error, unreadable body, non-200 status).  A
successful body is lowercased and unmarshalled; an unmarshal failure is the
panic of line 141, again `none`. -/
def fetchID (server : String → Option WireBody) (id parentID : String)
    (orderIndex : Nat) : Option CurbIDResponse :=
  (server id).bind (fun body => unmarshalBody (lowerBody body) parentID orderIndex)

/-- The aggregation map `secretsMap` (line 163): parent identifier to bucket
of collected entries; an untouched key is the empty bucket (Go map zero
value). -/
def SecretsMap := String → List Secret

/-- The empty map of line 163. -/
def emptyMap : SecretsMap := fun _ => []

/-- Go `secretsMap[parent] = append(value, secret)` (lines 174-179). -/
def addSecret (m : SecretsMap) (k : String) (s : Secret) : SecretsMap :=
  fun j => if j = k then m j ++ [s] else m j

/-- The emission condition of lines 152-154: a fragment is printed iff it is
neither empty nor the sentinel "no". -/
def emitSecret (s : Secret) : String :=
  if s.Value ≠ "" ∧ s.Value ≠ "no" then s.Value else ""

/-- One step of the insertion sort embedding `sort.Slice` by `OrderIndex`
(line 150). -/
def insertSorted (s : Secret) : List Secret → List Secret
  | [] => [s]
  | t :: ts =>
      if s.OrderIndex ≤ t.OrderIndex then s :: t :: ts
      else t :: insertSorted s ts

/-- The sort of line 150. -/
def sortSecrets : List Secret → List Secret
  | [] => []
  | s :: ss => insertSorted s (sortSecrets ss)

/-- The body of the walk's for-loop (lines 151-156), abstracted over the
recursive call: emit the fragment if printable, then recurse into the
entry's id. -/
def readRow (walk : SecretsMap → String → String) (m : SecretsMap) :
    List Secret → String
  | [] => ""
  | s :: rest => emitSecret s ++ walk m s.ID ++ readRow walk m rest

/-- Go `readSecretsMap` (lines 146-158) with a fuel bound standing for the
unbounded Go recursion (fuel 0 is the divergence cut-off, never reached on
tree-shaped maps walked with enough fuel). -/
def readSecretsMap : Nat → SecretsMap → String → String
  | 0 => fun _ _ => ""
  | fuel + 1 => fun m id => readRow (readSecretsMap fuel) m (sortSecrets (m id))

/-- A scheduled-but-not-yet-processed fetch: the argument triple of one
`go fetchID(id, session, parent, index)` (lines 164, 194-197). -/
structure Pending where
  id : String
  parentID : String
  orderIndex : Nat
deriving DecidableEq

/-- Reasons the Go program panics during collection. -/
inductive CrawlErr where
  | badMessage
  | fetchFailed
deriving DecidableEq

/-- Processing one dequeued result (lines 169-198): panic if the message is
non-empty and the depth non-zero (lines 169-171); append the entry
`⟨ID, Secret, OrderIndex⟩` of the response to the bucket of its
schedule-time parent (lines 174-179); if the secret is not the sentinel,
schedule nothing (lines 182-184); otherwise schedule every child, in listed
order, with parent the response's self-reported `ID` and order index its
position (lines 187-198). -/
def processResp (r : CurbIDResponse) (m : SecretsMap) (rest : List Pending) :
    Except CrawlErr (SecretsMap × List Pending) :=
  if r.Message ≠ "" ∧ r.Depth ≠ 0 then Except.error CrawlErr.badMessage
  else
    let m' := addSecret m r.ParentID ⟨r.ID, r.Secret, r.OrderIndex⟩
    if r.Secret ≠ "no" then Except.ok (m', rest)
    else
      Except.ok (m', rest ++ r.Next.enum.map (fun ic => ⟨ic.2, r.ID, ic.1⟩))

/-- Adversarial dequeue from the completion channel: the choice sequence
selects which of the in-flight fetches completes (and is consumed) next; any
completion order of `resultsChan` is one choice sequence. -/
def pickPending (choices : List Nat) :
    List Pending → Option (Pending × List Pending × List Nat)
  | [] => none
  | p :: ps =>
      some ((p :: ps).get ⟨choices.headD 0 % (p :: ps).length,
          Nat.mod_lt _ (Nat.succ_pos ps.length)⟩,
        (p :: ps).eraseIdx (choices.headD 0 % (p :: ps).length),
        choices.tail)

/-- The collection loop of `crawl` (lines 166-199).  The `fetching` counter
of the Go loop always equals the length of the pending list, so the loop
runs until the pending list is empty; `fuel` bounds the number of
iterations (`none` = fuel exhausted before the loop finished).  The fetch
argument abstracts `fetchID` with the session fixed. -/
def crawlLoop (fetch : Pending → Option CurbIDResponse) :
    Nat → List Nat → List Pending → SecretsMap →
    Option (Except CrawlErr SecretsMap)
  | _, _, [], m => some (Except.ok m)
  | 0, _, _ :: _, _ => none
  | fuel + 1, choices, p :: ps, m =>
      match pickPending choices (p :: ps) with
      | none => none
      | some (f, rest, choices') =>
          match fetch f with
          | none => some (Except.error CrawlErr.fetchFailed)
          | some r =>
              match processResp r m rest with
              | Except.error e => some (Except.error e)
              | Except.ok (m', pending') => crawlLoop fetch fuel choices' pending' m'

/-- Function `fetchID` with the session fixed, as the loop uses it. -/
def mkFetch (server : String → Option WireBody) :
    Pending → Option CurbIDResponse :=
  fun f => fetchID server f.id f.parentID f.orderIndex

/-- The collection loop from an arbitrary mid-run state, followed by the
walk from the synthetic root key "ROOT" (lines 200-201); output exists only
when the loop finished without a panic. -/
def crawlFrom (fetch : Pending → Option CurbIDResponse) (choices : List Nat)
    (fuel wfuel : Nat) (pending : List Pending) (m : SecretsMap) :
    Option (Except CrawlErr String) :=
  (crawlLoop fetch fuel choices pending m).map
    (Except.map (fun mf => readSecretsMap wfuel mf "ROOT"))

/-- Go `crawl` (lines 161-202): one root fetch scheduled with parent "ROOT" and
order index 0, then the collection loop, then the walk. -/
def crawl (fetch : Pending → Option CurbIDResponse) (id : String)
    (choices : List Nat) (fuel wfuel : Nat) : Option (Except CrawlErr String) :=
  crawlFrom fetch choices fuel wfuel [⟨id, "ROOT", 0⟩] emptyMap

/-- Phase of one fetch goroutine: created but network operation not yet
started; network operation in progress; or network operation over (result
enqueued, or the goroutine died on a fetch panic). -/
inductive Phase where
  | spawned
  | inFlight
  | finished
deriving DecidableEq

/-- One unit of work: a `go fetchID(...)` goroutine.  `hasSlot` records
whether the unit holds an admission slot of `requestsChan` (capacity 16,
line 60): children acquire one before being spawned (lines 189-197) and
release it after their fetch ends; the root fetch of line 164 is spawned
WITHOUT one. -/
structure Task where
  id : String
  parentID : String
  orderIndex : Nat
  phase : Phase
  hasSlot : Bool
deriving DecidableEq

/-- Control state of the collection-loop goroutine (lines 166-199):
at the head of the for-loop with the current value of `fetching`; inside the
child-scheduling loop of lines 187-198 (children still to schedule, with
their indexes, and the parent key to schedule them under); exited (line
200); or dead from a panic. -/
inductive MState where
  | loop (fetching : Nat)
  | scheduling (fetching : Nat) (parent : String)
      (children : List (Nat × String))
  | finishedCrawl
  | panicked
deriving DecidableEq

/-- Global state of the concurrency model: the live fetch goroutines, the
results channel contents, the number of admission slots currently held
(`len(requestsChan)`), the main loop's control state, and the aggregation
map. -/
structure CState where
  tasks : List Task
  queue : List CurbIDResponse
  slots : Nat
  main : MState
  smap : SecretsMap

/-- State at line 165: one root task spawned without an admission slot,
`fetching = 1`, empty channel, empty map. -/
def cinit (rootID : String) : CState :=
  ⟨[⟨rootID, "ROOT", 0, Phase.spawned, false⟩], [], 0, MState.loop 1, emptyMap⟩

/-- Interleaving semantics of `crawl` plus its fetch goroutines.  Task
transitions: a spawned goroutine starts its network operation; an in-flight
operation completes and enqueues its decoded result (or, failing, kills the
process — `taskCrash`); a finished goroutine releases its slot (if any) and
exits.  Main-loop transitions: exit when `fetching` reaches 0; dequeue a
result and panic on a non-empty message with non-zero depth (lines 169-171);
dequeue a leaf result (lines 174-184); dequeue a sentinel result and enter
the scheduling loop (lines 186-187); schedule one child, which blocks until
a slot is free (`slots < 16`) and then increments `fetching` (lines
189-197); leave the scheduling loop, decrementing `fetching` (the for-post
statement of line 166).  A crash only removes future behaviour, so leaving
the other goroutines able to run after `panicked` over-approximates the set
of reachable in-flight configurations. -/
inductive CStep (fetch : Pending → Option CurbIDResponse) :
    CState → CState → Prop where
  | taskStart (u v : List Task) (t : Task) (q : List CurbIDResponse)
      (slots : Nat) (ms : MState) (sm : SecretsMap) :
      t.phase = Phase.spawned →
      CStep fetch ⟨u ++ t :: v, q, slots, ms, sm⟩
        ⟨u ++ { t with phase := Phase.inFlight } :: v, q, slots, ms, sm⟩
  | taskComplete (u v : List Task) (t : Task) (q : List CurbIDResponse)
      (slots : Nat) (ms : MState) (sm : SecretsMap) (r : CurbIDResponse) :
      t.phase = Phase.inFlight →
      fetch ⟨t.id, t.parentID, t.orderIndex⟩ = some r →
      CStep fetch ⟨u ++ t :: v, q, slots, ms, sm⟩
        ⟨u ++ { t with phase := Phase.finished } :: v, q ++ [r], slots, ms, sm⟩
  | taskCrash (u v : List Task) (t : Task) (q : List CurbIDResponse)
      (slots : Nat) (ms : MState) (sm : SecretsMap) :
      t.phase = Phase.inFlight →
      fetch ⟨t.id, t.parentID, t.orderIndex⟩ = none →
      CStep fetch ⟨u ++ t :: v, q, slots, ms, sm⟩
        ⟨u ++ { t with phase := Phase.finished } :: v, q, slots,
          MState.panicked, sm⟩
  | taskRelease (u v : List Task) (t : Task) (q : List CurbIDResponse)
      (slots : Nat) (ms : MState) (sm : SecretsMap) :
      t.phase = Phase.finished →
      CStep fetch ⟨u ++ t :: v, q, slots, ms, sm⟩
        ⟨u ++ v, q, if t.hasSlot then slots - 1 else slots, ms, sm⟩
  | mainFinish (ts : List Task) (q : List CurbIDResponse) (slots : Nat)
      (sm : SecretsMap) :
      CStep fetch ⟨ts, q, slots, MState.loop 0, sm⟩
        ⟨ts, q, slots, MState.finishedCrawl, sm⟩
  | mainPanic (ts : List Task) (r : CurbIDResponse) (q : List CurbIDResponse)
      (slots n : Nat) (sm : SecretsMap) :
      r.Message ≠ "" → r.Depth ≠ 0 →
      CStep fetch ⟨ts, r :: q, slots, MState.loop (n + 1), sm⟩
        ⟨ts, q, slots, MState.panicked, sm⟩
  | mainLeaf (ts : List Task) (r : CurbIDResponse) (q : List CurbIDResponse)
      (slots n : Nat) (sm : SecretsMap) :
      ¬(r.Message ≠ "" ∧ r.Depth ≠ 0) →
      r.Secret ≠ "no" →
      CStep fetch ⟨ts, r :: q, slots, MState.loop (n + 1), sm⟩
        ⟨ts, q, slots, MState.loop n,
          addSecret sm r.ParentID ⟨r.ID, r.Secret, r.OrderIndex⟩⟩
  | mainBranch (ts : List Task) (r : CurbIDResponse) (q : List CurbIDResponse)
      (slots n : Nat) (sm : SecretsMap) :
      ¬(r.Message ≠ "" ∧ r.Depth ≠ 0) →
      r.Secret = "no" →
      CStep fetch ⟨ts, r :: q, slots, MState.loop (n + 1), sm⟩
        ⟨ts, q, slots, MState.scheduling (n + 1) r.ID r.Next.enum,
          addSecret sm r.ParentID ⟨r.ID, r.Secret, r.OrderIndex⟩⟩
  | mainSpawn (ts : List Task) (q : List CurbIDResponse) (slots n : Nat)
      (parent : String) (i : Nat) (c : String) (cs : List (Nat × String))
      (sm : SecretsMap) :
      slots < 16 →
      CStep fetch ⟨ts, q, slots, MState.scheduling n parent ((i, c) :: cs), sm⟩
        ⟨ts ++ [⟨c, parent, i, Phase.spawned, true⟩], q, slots + 1,
          MState.scheduling (n + 1) parent cs, sm⟩
  | mainDoneSched (ts : List Task) (q : List CurbIDResponse) (slots n : Nat)
      (parent : String) (sm : SecretsMap) :
      CStep fetch ⟨ts, q, slots, MState.scheduling n parent [], sm⟩
        ⟨ts, q, slots, MState.loop (n - 1), sm⟩

/-- States reachable by the traversal from its initial state. -/
inductive CReachable (fetch : Pending → Option CurbIDResponse) :
    CState → Prop where
  | init (rootID : String) : CReachable fetch (cinit rootID)
  | step {s s' : CState} : CReachable fetch s → CStep fetch s s' →
      CReachable fetch s'

/-- Number of fetches whose network operation is in progress. -/
def countInFlight (s : CState) : Nat :=
  (s.tasks.filter (fun t => decide (t.phase = Phase.inFlight))).length

/-- Number of live units of work holding an admission slot. -/
def countSlotted (s : CState) : Nat :=
  (s.tasks.filter (fun t => t.hasSlot)).length

/-- Inductive invariant: the slot count of `requestsChan` agrees with the
number of slot-holding units, never exceeds the capacity 16, and any
slotless unit whose fetch is not over yet (only ever the root) is the only
unit in the system, with an empty results channel and the main loop waiting
on the root. -/
def CInv (s : CState) : Prop :=
  s.slots = countSlotted s ∧ s.slots ≤ 16 ∧
  ∀ t ∈ s.tasks, t.hasSlot = false → t.phase ≠ Phase.finished →
    s.tasks = [t] ∧ s.queue = [] ∧ s.main = MState.loop 1

/-- The reachable state exhibited against C6: the root fetch's network
operation is in flight while no admission slot is held. -/
def c6state : CState :=
  ⟨[⟨"start", "ROOT", 0, Phase.inFlight, false⟩], [], 0, MState.loop 1,
    emptyMap⟩

/-- Comparison by order index, the sort key of line 150. -/
def leIdx (a b : Secret) : Prop := a.OrderIndex ≤ b.OrderIndex

/-- Strict comparison by order index. -/
def ltIdx (a b : Secret) : Prop := a.OrderIndex < b.OrderIndex

instance : IsAntisymm Secret ltIdx :=
  ⟨fun _ _ h h2 => absurd h2 (Nat.lt_asymm h)⟩

/-- Arrival order for the C1 witness: the three children completed in the
order c2, c0, c1, yet the walk emits x, y, z. -/
def c1Map : SecretsMap := fun k =>
  if k = "p" then [⟨"c2", "z", 2⟩, ⟨"c0", "x", 0⟩, ⟨"c1", "y", 1⟩] else []

/-- A server whose root node self-reports the id "impostor" although it was
fetched as "start", used to decide C2. -/
def c2Server : String → Option WireBody := fun i =>
  if i = "start" then
    some ⟨some "impostor", some 0, some "no", none, some (NextRaw.list ["a"])⟩
  else if i = "a" then some ⟨some "a", some 0, some "s", none, none⟩
  else none

/-- A server whose second response carries a non-empty diagnostic message
with reported depth 0, used to decide C5. -/
def c5Server : String → Option WireBody := fun i =>
  if i = "start" then
    some ⟨some "start", some 0, some "no", none, some (NextRaw.list ["a"])⟩
  else if i = "a" then
    some ⟨some "a", some 0, some "x", some "oops", none⟩
  else none

/-- A server whose very first response carries a non-empty message and a
non-zero depth, used for the C5 witness. -/
def c5bServer : String → Option WireBody := fun i =>
  if i = "start" then some ⟨some "start", some 1, some "x", some "oops", none⟩
  else none

/-- A server whose root fragment contains uppercase letters, used for C9. -/
def c9Server : String → Option WireBody := fun i =>
  if i = "start" then some ⟨some "start", some 0, some "SeCrEt", none, none⟩
  else none

theorem insertSorted_perm (s : Secret) (l : List Secret) :
    (insertSorted s l).Perm (s :: l) := by
  induction l with
  | nil => exact List.Perm.refl _
  | cons t ts ih =>
    rw [insertSorted]
    by_cases h : s.OrderIndex ≤ t.OrderIndex
    · rw [if_pos h]
    · rw [if_neg h]
      exact (ih.cons t).trans (List.Perm.swap s t ts)

theorem sortSecrets_perm (l : List Secret) : (sortSecrets l).Perm l := by
  induction l with
  | nil => exact List.Perm.refl _
  | cons s ss ih =>
    exact (insertSorted_perm s (sortSecrets ss)).trans (ih.cons s)

theorem insertSorted_pairwise (s : Secret) (l : List Secret)
    (h : l.Pairwise leIdx) : (insertSorted s l).Pairwise leIdx := by
  induction l with
  | nil => simp [insertSorted, leIdx]
  | cons t ts ih =>
    rw [List.pairwise_cons] at h
    rw [insertSorted]
    by_cases hle : s.OrderIndex ≤ t.OrderIndex
    · rw [if_pos hle]
      refine List.Pairwise.cons ?_ (List.Pairwise.cons h.1 h.2)
      intro b hb
      rcases List.mem_cons.mp hb with hb | hb
      · subst hb; exact hle
      · exact Nat.le_trans hle (h.1 b hb)
    · rw [if_neg hle]
      refine List.Pairwise.cons ?_ (ih h.2)
      intro b hb
      have hb' : b ∈ s :: ts := (insertSorted_perm s ts).mem_iff.mp hb
      rcases List.mem_cons.mp hb' with hb' | hb'
      · subst hb'; exact Nat.le_of_lt (Nat.lt_of_not_le hle)
      · exact h.1 b hb'

theorem sortSecrets_pairwise (l : List Secret) :
    (sortSecrets l).Pairwise leIdx := by
  induction l with
  | nil => exact List.Pairwise.nil
  | cons s ss ih => exact insertSorted_pairwise s (sortSecrets ss) ih

/-- A bucket whose target order is strictly increasing by order index is
sorted to exactly that order, whatever order its entries arrived in. -/
theorem sortSecrets_eq_of_perm (l c : List Secret) (hp : l.Perm c)
    (hs : c.Pairwise ltIdx) : sortSecrets l = c := by
  have h1 : (sortSecrets l).Perm c := (sortSecrets_perm l).trans hp
  have hne : c.Pairwise (fun a b => a.OrderIndex ≠ b.OrderIndex) :=
    hs.imp (fun h => Nat.ne_of_lt h)
  have hne' : (sortSecrets l).Pairwise (fun a b => a.OrderIndex ≠ b.OrderIndex) :=
    (h1.pairwise_iff (fun h => Ne.symm h)).mpr hne
  have h3 : (sortSecrets l).Pairwise ltIdx :=
    ((sortSecrets_pairwise l).and hne').imp
      (fun h => Nat.lt_of_le_of_ne h.1 h.2)
  exact List.eq_of_perm_of_sorted h1 h3 hs

theorem readSecretsMap_succ (fuel : Nat) (m : SecretsMap) (id : String) :
    readSecretsMap (fuel + 1) m id =
      readRow (readSecretsMap fuel) m (sortSecrets (m id)) := rfl

/-- C1.  For every completed traversal in which a parent node lists children
c0, c1, c2 (order indexes 0, 1, 2), the reconstructed output concatenates
those children's fragments (and subtrees) in the listed order, regardless of
the order in which the children's fetch results arrived on the completion
queue: the parent's bucket may hold the three entries in any arrival
permutation, and the walk still emits them in order-index order, because
`readSecretsMap` sorts the bucket by order index before emitting. -/
theorem c1_order_preservation (m : SecretsMap) (p : String)
    (e0 e1 e2 : Secret) (fuel : Nat)
    (hp : (m p).Perm [e0, e1, e2])
    (h0 : e0.OrderIndex = 0) (h1 : e1.OrderIndex = 1) (h2 : e2.OrderIndex = 2) :
    readSecretsMap (fuel + 1) m p =
      emitSecret e0 ++ readSecretsMap fuel m e0.ID ++
        (emitSecret e1 ++ readSecretsMap fuel m e1.ID ++
          (emitSecret e2 ++ readSecretsMap fuel m e2.ID ++ "")) := by
  have hsort : sortSecrets (m p) = [e0, e1, e2] := by
    refine sortSecrets_eq_of_perm _ _ hp ?_
    simp [List.pairwise_cons, ltIdx, h0, h1, h2]
  rw [readSecretsMap_succ, hsort]
  rfl

theorem c1_order_preservation_witness :
    readSecretsMap 2 c1Map "p" =
      emitSecret ⟨"c0", "x", 0⟩ ++ readSecretsMap 1 c1Map "c0" ++
        (emitSecret ⟨"c1", "y", 1⟩ ++ readSecretsMap 1 c1Map "c1" ++
          (emitSecret ⟨"c2", "z", 2⟩ ++ readSecretsMap 1 c1Map "c2" ++ "")) :=
  c1_order_preservation c1Map "p" ⟨"c0", "x", 0⟩ ⟨"c1", "y", 1⟩ ⟨"c2", "z", 2⟩ 1
    (by decide) rfl rfl rfl

theorem readRow_append (walk : SecretsMap → String → String) (m : SecretsMap)
    (u v : List Secret) :
    readRow walk m (u ++ v) = readRow walk m u ++ readRow walk m v := by
  induction u with
  | nil => rw [List.nil_append, readRow, String.empty_append]
  | cons s rest ih =>
    simp [List.cons_append, readRow, ih, String.append_assoc]

/-- C3.  A node whose fragment is not the "no secret" sentinel (including an
empty fragment) terminates its branch: processing its completed result
schedules none of the identifiers in its children field (first conjunct,
lines 180-184: the scheduling loop is only reached when the secret equals
"no"), and the walk over its parent's bucket emits its fragment into the
reconstructed output (second conjunct, lines 151-156; for the empty fragment
the contribution is the empty string). -/
theorem c3_leaf_termination :
    (∀ (r : CurbIDResponse) (m : SecretsMap) (rest : List Pending)
        (m' : SecretsMap) (p' : List Pending),
        r.Secret ≠ "no" →
        processResp r m rest = Except.ok (m', p') → p' = rest) ∧
    (∀ (fuel : Nat) (m : SecretsMap) (p : String) (e : Secret),
        e ∈ m p → e.Value ≠ "no" →
        ∃ pre post, readSecretsMap (fuel + 1) m p = pre ++ e.Value ++ post) := by
  constructor
  · intro r m rest m' p' hsec hok
    unfold processResp at hok
    by_cases hmsg : r.Message ≠ "" ∧ r.Depth ≠ 0
    · rw [if_pos hmsg] at hok
      exact absurd hok (by intro h; exact Except.noConfusion h)
    · rw [if_neg hmsg] at hok
      rw [if_pos hsec] at hok
      have := Except.ok.inj hok
      exact (congrArg Prod.snd this).symm
  · intro fuel m p e hmem hval
    have hmem' : e ∈ sortSecrets (m p) := (sortSecrets_perm (m p)).mem_iff.mpr hmem
    obtain ⟨u, v, huv⟩ := List.append_of_mem hmem'
    rw [readSecretsMap_succ, huv, readRow_append, readRow]
    by_cases hempty : e.Value = ""
    · refine ⟨"", readRow (readSecretsMap fuel) m u ++
        (emitSecret e ++ readSecretsMap fuel m e.ID ++
          readRow (readSecretsMap fuel) m v), ?_⟩
      rw [hempty, String.empty_append, String.empty_append]
    · refine ⟨readRow (readSecretsMap fuel) m u,
        readSecretsMap fuel m e.ID ++ readRow (readSecretsMap fuel) m v, ?_⟩
      have hemit : emitSecret e = e.Value := if_pos ⟨hempty, hval⟩
      rw [hemit, String.append_assoc, String.append_assoc]

/-- Parent bucket for the C3 and C4 witnesses: one leaf entry with fragment
"x" and one sentinel entry whose subtree is empty. -/
def c3Map : SecretsMap := fun k =>
  if k = "p" then [⟨"c0", "x", 0⟩, ⟨"c1", "no", 1⟩] else []

theorem c3_leaf_termination_witness :
    ([] : List Pending) = ([] : List Pending) ∧
    (∃ pre post, readSecretsMap 1 c3Map "p" = pre ++ "x" ++ post) :=
  ⟨c3_leaf_termination.1 ⟨"c0", 0, "x", "", ["d"], "p", 0⟩ emptyMap []
      (addSecret emptyMap "p" ⟨"c0", "x", 0⟩) [] (by decide) rfl,
    c3_leaf_termination.2 0 c3Map "p" ⟨"c0", "x", 0⟩ (by decide) (by decide)⟩

/-- C4.  A node whose fragment equals the "no secret" sentinel schedules
every identifier of its children sequence, in the listed order, with order
index equal to the child's position in that sequence and parent key the
node's self-reported id (first conjunct, lines 182-198), and contributes
nothing of its own to the reconstructed output: the walk's entry for it
consists solely of the recursion into its subtree, with no emitted fragment
(second conjunct, lines 151-156). -/
theorem c4_sentinel_skip :
    (∀ (r : CurbIDResponse) (m : SecretsMap) (rest : List Pending)
        (m' : SecretsMap) (p' : List Pending),
        r.Secret = "no" →
        processResp r m rest = Except.ok (m', p') →
        p' = rest ++ r.Next.enum.map (fun ic => ⟨ic.2, r.ID, ic.1⟩)) ∧
    (∀ (fuel : Nat) (m : SecretsMap) (p : String) (e : Secret)
        (u v : List Secret),
        sortSecrets (m p) = u ++ e :: v → e.Value = "no" →
        readSecretsMap (fuel + 1) m p =
          readRow (readSecretsMap fuel) m u ++
            (readSecretsMap fuel m e.ID ++ readRow (readSecretsMap fuel) m v)) := by
  constructor
  · intro r m rest m' p' hsec hok
    unfold processResp at hok
    by_cases hmsg : r.Message ≠ "" ∧ r.Depth ≠ 0
    · rw [if_pos hmsg] at hok
      exact absurd hok (by intro h; exact Except.noConfusion h)
    · rw [if_neg hmsg] at hok
      rw [if_neg (by simp [hsec])] at hok
      have := Except.ok.inj hok
      exact (congrArg Prod.snd this).symm
  · intro fuel m p e u v huv hval
    rw [readSecretsMap_succ, huv, readRow_append, readRow]
    have hemit : emitSecret e = "" := by
      unfold emitSecret
      rw [if_neg (by simp [hval])]
    rw [hemit, String.empty_append]

theorem c4_sentinel_skip_witness :
    ([⟨"k1", "n", 0⟩, ⟨"k2", "n", 1⟩] : List Pending) =
      ([] : List Pending) ++
        ((⟨"n", 0, "no", "", ["k1", "k2"], "p", 0⟩ :
          CurbIDResponse).Next.enum.map (fun ic => ⟨ic.2, "n", ic.1⟩)) ∧
    readSecretsMap 1 c3Map "p" =
      readRow (readSecretsMap 0) c3Map [⟨"c0", "x", 0⟩] ++
        (readSecretsMap 0 c3Map "c1" ++ readRow (readSecretsMap 0) c3Map []) :=
  ⟨c4_sentinel_skip.1 ⟨"n", 0, "no", "", ["k1", "k2"], "p", 0⟩ emptyMap []
      (addSecret emptyMap "p" ⟨"n", "no", 0⟩) [⟨"k1", "n", 0⟩, ⟨"k2", "n", 1⟩]
      rfl rfl,
    c4_sentinel_skip.2 0 c3Map "p" ⟨"c1", "no", 1⟩ [⟨"c0", "x", 0⟩] []
      (by decide) rfl⟩

/-- Processing a validated result in one equation: the recorded entry is
built from the response's self-reported `ID`, its fragment and its
schedule-time order index, appended under its schedule-time parent key, and
children are scheduled only for sentinel fragments, keyed by the
self-reported `ID`. -/
theorem processResp_eq (r : CurbIDResponse) (m : SecretsMap)
    (rest : List Pending) (hok : ¬(r.Message ≠ "" ∧ r.Depth ≠ 0)) :
    processResp r m rest =
      Except.ok (addSecret m r.ParentID ⟨r.ID, r.Secret, r.OrderIndex⟩,
        rest ++ (if r.Secret = "no"
          then r.Next.enum.map (fun ic => (⟨ic.2, r.ID, ic.1⟩ : Pending))
          else [])) := by
  unfold processResp
  rw [if_neg hok]
  by_cases h : r.Secret = "no"
  · rw [if_neg (by simp [h]), if_pos h]
  · rw [if_pos h, if_neg h, List.append_nil]

theorem getD_map_toLower (o : Option String) :
    (o.map toLowerStr).getD "" = toLowerStr (o.getD "") := by
  cases o <;> rfl

theorem getD_map_toLower_no (o : Option String) :
    (o.map toLowerStr).getD "no" = toLowerStr (o.getD "no") := by
  cases o <;> rfl

/-- C2 as stated is false: fetching the identifier "start" from a server
whose root descriptor self-reports the id "impostor" records the entry with
childId "impostor" (not the requested "start") and buckets the child under
the parent key "impostor"; the bucket of the requested identifier "start"
stays empty. -/
theorem c2_counterexample :
    (crawlLoop (mkFetch c2Server) 10 [] [⟨"start", "ROOT", 0⟩] emptyMap).map
        (Except.map (fun mf => (mf "ROOT", mf "start", mf "impostor"))) =
      some (Except.ok ([⟨"impostor", "no", 0⟩], [], [⟨"a", "s", 0⟩])) ∧
    "impostor" ≠ "start" :=
  ⟨rfl, by decide⟩

/-- C2 amended: for every completed fetch, the engine records the
CollectedEntry's childId as the descriptor's self-reported (lowercased) `id`
field — not the requested identifier — and schedules the node's children
with parent key equal to that same self-reported id; the requested
identifier only selects the URL, while the schedule-time parent and order
index are carried through unchanged. -/
theorem c2_amended (server : String → Option WireBody) (f : Pending)
    (r : CurbIDResponse) (m : SecretsMap) (rest : List Pending)
    (hr : mkFetch server f = some r)
    (hok : ¬(r.Message ≠ "" ∧ r.Depth ≠ 0)) :
    r.ParentID = f.parentID ∧ r.OrderIndex = f.orderIndex ∧
    r.ID = toLowerStr (((server f.id).bind WireBody.id).getD "") ∧
    processResp r m rest =
      Except.ok (addSecret m f.parentID ⟨r.ID, r.Secret, f.orderIndex⟩,
        rest ++ (if r.Secret = "no"
          then r.Next.enum.map (fun ic => (⟨ic.2, r.ID, ic.1⟩ : Pending))
          else [])) := by
  obtain ⟨fid, fparent, fidx⟩ := f
  unfold mkFetch fetchID at hr
  rcases hs : server fid with _ | body
  · rw [hs] at hr
    simp at hr
  · rw [hs] at hr
    rw [Option.some_bind] at hr
    obtain ⟨bid, bdepth, bsec, bmsg, bnext⟩ := body
    simp only [lowerBody] at hr
    unfold unmarshalBody at hr
    rcases bnext with _ | nr
    · simp only [Option.map_none'] at hr
      injection hr with h
      subst h
      refine ⟨rfl, rfl, ?_, ?_⟩
      · exact getD_map_toLower bid
      · exact processResp_eq _ m rest hok
    · simp only [Option.map_some'] at hr
      rcases nr with l | s | _
      · simp only [lowerNextRaw, decodeNextWrapper] at hr
        injection hr with h
        subst h
        refine ⟨rfl, rfl, ?_, ?_⟩
        · exact getD_map_toLower bid
        · exact processResp_eq _ m rest hok
      · simp only [lowerNextRaw, decodeNextWrapper] at hr
        injection hr with h
        subst h
        refine ⟨rfl, rfl, ?_, ?_⟩
        · exact getD_map_toLower bid
        · exact processResp_eq _ m rest hok
      · simp only [lowerNextRaw, decodeNextWrapper] at hr
        simp at hr

theorem c2_amended_witness :
    "ROOT" = "ROOT" ∧ (0 : Nat) = 0 ∧
    "impostor" = toLowerStr "impostor" ∧
    processResp ⟨"impostor", 0, "no", "", ["a"], "ROOT", 0⟩ emptyMap [] =
      Except.ok (addSecret emptyMap "ROOT" ⟨"impostor", "no", 0⟩,
        [⟨"a", "impostor", 0⟩]) :=
  c2_amended c2Server ⟨"start", "ROOT", 0⟩
    ⟨"impostor", 0, "no", "", ["a"], "ROOT", 0⟩ emptyMap [] rfl (by decide)

/-- Unfolding of one iteration of the collection loop once the dequeued
fetch is fixed. -/
theorem crawlLoop_cons (fetch : Pending → Option CurbIDResponse) (fuel : Nat)
    (choices : List Nat) (p : Pending) (ps : List Pending) (m : SecretsMap)
    (f : Pending) (rest : List Pending) (choices' : List Nat)
    (hpick : pickPending choices (p :: ps) = some (f, rest, choices')) :
    crawlLoop fetch (fuel + 1) choices (p :: ps) m =
      match fetch f with
      | none => some (Except.error CrawlErr.fetchFailed)
      | some r =>
          match processResp r m rest with
          | Except.error e => some (Except.error e)
          | Except.ok (m', pending') =>
              crawlLoop fetch fuel choices' pending' m' := by
  simp only [crawlLoop]
  rw [hpick]

/-- One loop iteration whose dequeued fetch succeeded. -/
theorem crawlLoop_step (fetch : Pending → Option CurbIDResponse) (fuel : Nat)
    (choices : List Nat) (p : Pending) (ps : List Pending) (m : SecretsMap)
    (f : Pending) (rest : List Pending) (choices' : List Nat)
    (r : CurbIDResponse)
    (hpick : pickPending choices (p :: ps) = some (f, rest, choices'))
    (hfetch : fetch f = some r) :
    crawlLoop fetch (fuel + 1) choices (p :: ps) m =
      match processResp r m rest with
      | Except.error e => some (Except.error e)
      | Except.ok (m', pending') =>
          crawlLoop fetch fuel choices' pending' m' := by
  rw [crawlLoop_cons fetch fuel choices p ps m f rest choices' hpick, hfetch]

/-- One loop iteration whose dequeued fetch failed. -/
theorem crawlLoop_fail (fetch : Pending → Option CurbIDResponse) (fuel : Nat)
    (choices : List Nat) (p : Pending) (ps : List Pending) (m : SecretsMap)
    (f : Pending) (rest : List Pending) (choices' : List Nat)
    (hpick : pickPending choices (p :: ps) = some (f, rest, choices'))
    (hfail : fetch f = none) :
    crawlLoop fetch (fuel + 1) choices (p :: ps) m =
      some (Except.error CrawlErr.fetchFailed) := by
  rw [crawlLoop_cons fetch fuel choices p ps m f rest choices' hpick, hfail]

/-- C5 as stated is false: with `c5Server`, the second completed result (for
identifier "a", fetched after the root) carries the non-empty diagnostic
message "oops", yet because its reported depth is 0 the engine does not
abort — the traversal completes and produces the output "x".  The abort
decision of lines 169-171 tests the depth field, not whether the result is
the first one. -/
theorem c5_counterexample :
    crawl (mkFetch c5Server) "start" [] 10 10 = some (Except.ok "x") ∧
    (mkFetch c5Server ⟨"a", "start", 0⟩).map CurbIDResponse.Message =
      some "oops" ∧
    "oops" ≠ "" :=
  ⟨rfl, rfl, by decide⟩

/-- C5 amended: the engine aborts the traversal as a fatal protocol
violation exactly when a completed result carries a non-empty message field
AND a non-zero source-reported depth field, regardless of whether the result
is the first completed one; when both hold, the collection loop stops at
that result with the protocol-violation error (first conjunct: the
validation of lines 169-171; second conjunct: the abort at run level). -/
theorem c5_amended :
    (∀ (r : CurbIDResponse) (m : SecretsMap) (rest : List Pending),
        processResp r m rest = Except.error CrawlErr.badMessage ↔
          (r.Message ≠ "" ∧ r.Depth ≠ 0)) ∧
    (∀ (fetch : Pending → Option CurbIDResponse) (fuel : Nat)
        (choices choices' : List Nat) (p : Pending) (ps rest : List Pending)
        (m : SecretsMap) (f : Pending) (r : CurbIDResponse),
        pickPending choices (p :: ps) = some (f, rest, choices') →
        fetch f = some r → r.Message ≠ "" → r.Depth ≠ 0 →
        crawlLoop fetch (fuel + 1) choices (p :: ps) m =
          some (Except.error CrawlErr.badMessage)) := by
  constructor
  · intro r m rest
    constructor
    · intro h
      by_contra hok
      rw [processResp_eq r m rest hok] at h
      exact Except.noConfusion h
    · intro h
      unfold processResp
      rw [if_pos h]
  · intro fetch fuel choices choices' p ps rest m f r hpick hfetch hmsg hdepth
    rw [crawlLoop_step fetch fuel choices p ps m f rest choices' r hpick hfetch]
    have hbad : processResp r m rest = Except.error CrawlErr.badMessage := by
      unfold processResp
      rw [if_pos ⟨hmsg, hdepth⟩]
    rw [hbad]

theorem c5_amended_witness :
    crawlLoop (mkFetch c5bServer) 1 [] [⟨"start", "ROOT", 0⟩] emptyMap =
      some (Except.error CrawlErr.badMessage) :=
  c5_amended.2 (mkFetch c5bServer) 0 [] [] ⟨"start", "ROOT", 0⟩ [] [] emptyMap
    ⟨"start", "ROOT", 0⟩ ⟨"start", 1, "x", "oops", [], "ROOT", 0⟩
    rfl rfl (by decide) (by decide)

/-- C7.  A descriptor whose children field is the bare string s decodes to
the same one-element ordered child sequence as one whose children field is
the single-element list containing s (first conjunct, lines 32-48), and the
two wire forms are treated identically by the rest of the traversal: the
whole crawl produces the same result whichever of the two forms any one
server response uses (second conjunct). -/
theorem c7_scalar_list_normalization :
    (∀ s : String, decodeNextWrapper (NextRaw.str s) = some [s] ∧
        decodeNextWrapper (NextRaw.list [s]) = some [s]) ∧
    (∀ (server : String → Option WireBody) (i0 : String) (w : WireBody)
        (s : String) (id : String) (choices : List Nat) (fuel wfuel : Nat),
        crawl (mkFetch (fun j => if j = i0
            then some ⟨w.id, w.depth, w.secret, w.message,
              some (NextRaw.str s)⟩
            else server j)) id choices fuel wfuel =
          crawl (mkFetch (fun j => if j = i0
            then some ⟨w.id, w.depth, w.secret, w.message,
              some (NextRaw.list [s])⟩
            else server j)) id choices fuel wfuel) := by
  constructor
  · intro s
    exact ⟨rfl, rfl⟩
  · intro server i0 w s id choices fuel wfuel
    have hf : mkFetch (fun j => if j = i0
        then some ⟨w.id, w.depth, w.secret, w.message, some (NextRaw.str s)⟩
        else server j) =
      mkFetch (fun j => if j = i0
        then some ⟨w.id, w.depth, w.secret, w.message, some (NextRaw.list [s])⟩
        else server j) := by
      funext f
      unfold mkFetch fetchID
      by_cases h : f.id = i0
      · simp [h, unmarshalBody, lowerBody, lowerNextRaw, decodeNextWrapper]
      · simp [h]
    rw [hf]

/-- C8.  If the fetch dequeued at any iteration of the collection loop has
failed (network error, unreadable body, or non-200 status — all of which
make the fetch return no descriptor), the whole traversal run from that
state returns the fetch-failure error and produces no output string at all:
the output is computed only from a loop that finished in the ok state, so
entries already collected in `m` from branches that completed earlier are
discarded. -/
theorem c8_fatal_abort (fetch : Pending → Option CurbIDResponse)
    (choices : List Nat) (fuel wfuel : Nat) (p : Pending) (ps : List Pending)
    (m : SecretsMap) (f : Pending) (rest : List Pending)
    (choices' : List Nat)
    (hpick : pickPending choices (p :: ps) = some (f, rest, choices'))
    (hfail : fetch f = none) :
    crawlFrom fetch choices (fuel + 1) wfuel (p :: ps) m =
      some (Except.error CrawlErr.fetchFailed) := by
  unfold crawlFrom
  rw [crawlLoop_fail fetch fuel choices p ps m f rest choices' hpick hfail]
  rfl

theorem c8_fatal_abort_witness :
    crawlFrom (fun _ => none) [] 1 0 [⟨"start", "ROOT", 0⟩] emptyMap =
      some (Except.error CrawlErr.fetchFailed) :=
  c8_fatal_abort (fun _ => none) [] 0 0 ⟨"start", "ROOT", 0⟩ [] emptyMap
    ⟨"start", "ROOT", 0⟩ [] [] rfl rfl

/-- C9.  The entire body is lowercased before decoding, so every recorded
value — the self-reported id, the fragment, the diagnostic message and every
child identifier — is the lowercase form of what the source sent (first
conjunct: decoding the lowercased body equals decoding the raw body followed
by lowercasing every string component), and for the concrete server whose
root fragment is "SeCrEt" the emitted output is "secret", which differs from
the wire fragment (remaining conjuncts). -/
theorem c9_lowercase_body :
    (∀ (w : WireBody) (parentID : String) (orderIndex : Nat),
        unmarshalBody (lowerBody w) parentID orderIndex =
          (unmarshalBody w parentID orderIndex).map
            (fun r => ⟨toLowerStr r.ID, r.Depth, toLowerStr r.Secret,
              toLowerStr r.Message, r.Next.map toLowerStr, r.ParentID,
              r.OrderIndex⟩)) ∧
    crawl (mkFetch c9Server) "start" [] 5 5 = some (Except.ok "secret") ∧
    (c9Server "start").bind WireBody.secret = some "SeCrEt" ∧
    "secret" ≠ "SeCrEt" := by
  refine ⟨?_, rfl, rfl, by decide⟩
  intro w parentID orderIndex
  unfold unmarshalBody lowerBody
  rcases hnx : w.next with _ | nr
  · simp [Option.map_none', getD_map_toLower, getD_map_toLower_no]
  · rcases nr with l | s | _
    · simp [Option.map_some', lowerNextRaw, decodeNextWrapper,
        getD_map_toLower, getD_map_toLower_no]
    · simp [Option.map_some', lowerNextRaw, decodeNextWrapper,
        getD_map_toLower, getD_map_toLower_no]
    · simp [Option.map_some', lowerNextRaw, decodeNextWrapper]

/-- C10.  A response body that omits the secret field decodes to the
sentinel fragment "no" (the decoder pre-initialises the field to the
sentinel, lines 134-139), so the node is treated as an internal node: its
entry emits no fragment during the walk, and processing it schedules every
listed child (lines 182-198). -/
theorem c10_missing_secret (w : WireBody) (parentID : String)
    (orderIndex : Nat) (r : CurbIDResponse) (m : SecretsMap)
    (rest : List Pending)
    (hsec : w.secret = none)
    (hr : unmarshalBody (lowerBody w) parentID orderIndex = some r)
    (hmsg : ¬(r.Message ≠ "" ∧ r.Depth ≠ 0)) :
    r.Secret = "no" ∧ emitSecret ⟨r.ID, r.Secret, r.OrderIndex⟩ = "" ∧
    processResp r m rest =
      Except.ok (addSecret m r.ParentID ⟨r.ID, "no", r.OrderIndex⟩,
        rest ++ r.Next.enum.map (fun ic => (⟨ic.2, r.ID, ic.1⟩ : Pending))) := by
  have hs : r.Secret = "no" := by
    unfold unmarshalBody lowerBody at hr
    rw [hsec] at hr
    simp only [Option.map_none'] at hr
    rcases hnx : w.next with _ | nr
    · rw [hnx] at hr
      simp only [Option.map_none'] at hr
      injection hr with h
      rw [← h]
      rfl
    · rw [hnx] at hr
      simp only [Option.map_some'] at hr
      rcases hdn : decodeNextWrapper (lowerNextRaw nr) with _ | ids
      · rw [hdn] at hr
        simp at hr
      · rw [hdn] at hr
        injection hr with h
        rw [← h]
        rfl
  refine ⟨hs, ?_, ?_⟩
  · unfold emitSecret
    rw [if_neg (by simp [hs])]
  · rw [processResp_eq r m rest hmsg, hs, if_pos rfl]

theorem c10_missing_secret_witness :
    "no" = "no" ∧ emitSecret ⟨"n", "no", 3⟩ = "" ∧
    processResp ⟨"n", 0, "no", "", ["k"], "par", 3⟩ emptyMap [] =
      Except.ok (addSecret emptyMap "par" ⟨"n", "no", 3⟩, [⟨"k", "n", 0⟩]) :=
  c10_missing_secret ⟨some "n", some 0, none, none, some (NextRaw.list ["k"])⟩
    "par" 3 ⟨"n", 0, "no", "", ["k"], "par", 3⟩ emptyMap [] rfl rfl (by decide)

theorem filter_len_append_cons {α : Type} (p : α → Bool) (u v : List α)
    (a b : α) (h : p a = p b) :
    ((u ++ a :: v).filter p).length = ((u ++ b :: v).filter p).length := by
  cases hpb : p b
  · simp [List.filter_append, List.filter_cons, h, hpb]
  · simp [List.filter_append, List.filter_cons, h, hpb]

theorem filter_len_append_remove {α : Type} (p : α → Bool) (u v : List α)
    (a : α) :
    ((u ++ a :: v).filter p).length =
      ((u ++ v).filter p).length + (if p a then 1 else 0) := by
  cases hpa : p a
  · simp [List.filter_append, List.filter_cons, hpa]
  · simp [List.filter_append, List.filter_cons, hpa]
    omega

theorem singleton_eq {α : Type} (u v : List α) (t x : α)
    (h : u ++ t :: v = [x]) : u = [] ∧ t = x ∧ v = [] := by
  cases u with
  | nil =>
    simp only [List.nil_append] at h
    injection h with h1 h2
    exact ⟨rfl, h1, h2⟩
  | cons a u' =>
    simp only [List.cons_append] at h
    injection h with h1 h2
    exact absurd h2 (by simp)

theorem length_filter_mono {α : Type} (l : List α) (p q : α → Bool)
    (h : ∀ a ∈ l, p a = true → q a = true) :
    (l.filter p).length ≤ (l.filter q).length := by
  induction l with
  | nil => exact Nat.le_refl 0
  | cons a l ih =>
    have ih' := ih (fun b hb hpb => h b (List.mem_cons_of_mem a hb) hpb)
    by_cases hpa : p a = true
    · have hqa := h a (List.mem_cons_self a l) hpa
      simp only [List.filter_cons, hpa, hqa, if_true, List.length_cons]
      omega
    · have hpa' : p a = false := by
        revert hpa
        cases p a <;> simp
      by_cases hqa : q a = true
      · simp [List.filter_cons, hpa', hqa]
        omega
      · have hqa' : q a = false := by
          revert hqa
          cases q a <;> simp
        simp [List.filter_cons, hpa', hqa']
        omega

theorem cinv_init (rootID : String) : CInv (cinit rootID) := by
  refine ⟨rfl, Nat.zero_le 16, ?_⟩
  intro t hmem hslot hphase
  have := List.mem_singleton.mp hmem
  subst this
  exact ⟨rfl, rfl, rfl⟩

theorem cinv_step (fetch : Pending → Option CurbIDResponse) {s s' : CState}
    (hstep : CStep fetch s s') (hinv : CInv s) : CInv s' := by
  obtain ⟨h1, h2, h3⟩ := hinv
  cases hstep with
  | taskStart u v t q slots ms sm hph =>
    refine ⟨?_, h2, ?_⟩
    · exact h1.trans (filter_len_append_cons _ u v t _ rfl)
    · intro t2 hmem hslot hphase
      rcases List.mem_append.mp hmem with hu | hcv
      · obtain ⟨heq, -, -⟩ :=
          h3 t2 (List.mem_append.mpr (Or.inl hu)) hslot hphase
        obtain ⟨hu0, -, -⟩ := singleton_eq u v t t2 heq
        exact absurd (hu0 ▸ hu) (List.not_mem_nil t2)
      · rcases List.mem_cons.mp hcv with hts | hv
        · subst hts
          obtain ⟨heq, hq, hm⟩ := h3 t (by simp) hslot
            (by rw [hph]; intro hc; exact Phase.noConfusion hc)
          obtain ⟨hu0, -, hv0⟩ := singleton_eq u v t t heq
          subst hu0
          subst hv0
          exact ⟨rfl, hq, hm⟩
        · obtain ⟨heq, -, -⟩ :=
            h3 t2 (List.mem_append.mpr (Or.inr (List.mem_cons_of_mem t hv)))
              hslot hphase
          obtain ⟨-, -, hv0⟩ := singleton_eq u v t t2 heq
          exact absurd (hv0 ▸ hv) (List.not_mem_nil t2)
  | taskComplete u v t q slots ms sm r hph hf =>
    refine ⟨?_, h2, ?_⟩
    · exact h1.trans (filter_len_append_cons _ u v t _ rfl)
    · intro t2 hmem hslot hphase
      rcases List.mem_append.mp hmem with hu | hcv
      · obtain ⟨heq, -, -⟩ :=
          h3 t2 (List.mem_append.mpr (Or.inl hu)) hslot hphase
        obtain ⟨hu0, -, -⟩ := singleton_eq u v t t2 heq
        exact absurd (hu0 ▸ hu) (List.not_mem_nil t2)
      · rcases List.mem_cons.mp hcv with hts | hv
        · subst hts
          exact absurd rfl hphase
        · obtain ⟨heq, -, -⟩ :=
            h3 t2 (List.mem_append.mpr (Or.inr (List.mem_cons_of_mem t hv)))
              hslot hphase
          obtain ⟨-, -, hv0⟩ := singleton_eq u v t t2 heq
          exact absurd (hv0 ▸ hv) (List.not_mem_nil t2)
  | taskCrash u v t q slots ms sm hph hf =>
    refine ⟨?_, h2, ?_⟩
    · exact h1.trans (filter_len_append_cons _ u v t _ rfl)
    · intro t2 hmem hslot hphase
      rcases List.mem_append.mp hmem with hu | hcv
      · obtain ⟨heq, -, -⟩ :=
          h3 t2 (List.mem_append.mpr (Or.inl hu)) hslot hphase
        obtain ⟨hu0, -, -⟩ := singleton_eq u v t t2 heq
        exact absurd (hu0 ▸ hu) (List.not_mem_nil t2)
      · rcases List.mem_cons.mp hcv with hts | hv
        · subst hts
          exact absurd rfl hphase
        · obtain ⟨heq, -, -⟩ :=
            h3 t2 (List.mem_append.mpr (Or.inr (List.mem_cons_of_mem t hv)))
              hslot hphase
          obtain ⟨-, -, hv0⟩ := singleton_eq u v t t2 heq
          exact absurd (hv0 ▸ hv) (List.not_mem_nil t2)
  | taskRelease u v t q slots ms sm hph =>
    have hsplit := filter_len_append_remove (fun t => t.hasSlot) u v t
    refine ⟨?_, ?_, ?_⟩
    · show (if t.hasSlot then slots - 1 else slots) =
        ((u ++ v).filter (fun t => t.hasSlot)).length
      have h1' : slots = ((u ++ t :: v).filter (fun t => t.hasSlot)).length := h1
      cases hts : t.hasSlot
      · rw [hts] at hsplit
        rw [if_neg Bool.false_ne_true] at hsplit ⊢
        omega
      · rw [hts] at hsplit
        rw [if_pos rfl] at hsplit ⊢
        omega
    · show (if t.hasSlot then slots - 1 else slots) ≤ 16
      have h2' : slots ≤ 16 := h2
      cases hts : t.hasSlot
      · rw [if_neg Bool.false_ne_true]
        exact h2'
      · rw [if_pos rfl]
        omega
    · intro t2 hmem hslot hphase
      rcases List.mem_append.mp hmem with hu | hv
      · obtain ⟨heq, -, -⟩ :=
          h3 t2 (List.mem_append.mpr (Or.inl hu)) hslot hphase
        obtain ⟨hu0, -, -⟩ := singleton_eq u v t t2 heq
        exact absurd (hu0 ▸ hu) (List.not_mem_nil t2)
      · obtain ⟨heq, -, -⟩ :=
          h3 t2 (List.mem_append.mpr (Or.inr (List.mem_cons_of_mem t hv)))
            hslot hphase
        obtain ⟨-, -, hv0⟩ := singleton_eq u v t t2 heq
        exact absurd (hv0 ▸ hv) (List.not_mem_nil t2)
  | mainFinish ts q slots sm =>
    refine ⟨h1, h2, ?_⟩
    intro t2 hmem hslot hphase
    have := (h3 t2 hmem hslot hphase).2.2
    exact absurd this (by intro hc; injection hc with hc'; exact absurd hc' (by omega))
  | mainPanic ts r q slots n sm hmsg hdep =>
    refine ⟨h1, h2, ?_⟩
    intro t2 hmem hslot hphase
    have := (h3 t2 hmem hslot hphase).2.1
    exact absurd this (by simp)
  | mainLeaf ts r q slots n sm hmsg hsec =>
    refine ⟨h1, h2, ?_⟩
    intro t2 hmem hslot hphase
    have := (h3 t2 hmem hslot hphase).2.1
    exact absurd this (by simp)
  | mainBranch ts r q slots n sm hmsg hsec =>
    refine ⟨h1, h2, ?_⟩
    intro t2 hmem hslot hphase
    have := (h3 t2 hmem hslot hphase).2.1
    exact absurd this (by simp)
  | mainSpawn ts q slots n parent i c cs sm hlt =>
    refine ⟨?_, Nat.succ_le_of_lt hlt, ?_⟩
    · show slots + 1 =
        ((ts ++ [(⟨c, parent, i, Phase.spawned, true⟩ : Task)]).filter
          (fun t => t.hasSlot)).length
      have h1' : slots = (ts.filter (fun t => t.hasSlot)).length := h1
      simp [List.filter_append, List.filter_cons]
      omega
    · intro t2 hmem hslot hphase
      rcases List.mem_append.mp hmem with hts | hnew
      · have := (h3 t2 hts hslot hphase).2.2
        exact absurd this (by intro hc; exact MState.noConfusion hc)
      · have := List.mem_singleton.mp hnew
        subst this
        exact absurd hslot (by simp)
  | mainDoneSched ts q slots n parent sm =>
    refine ⟨h1, h2, ?_⟩
    intro t2 hmem hslot hphase
    have := (h3 t2 hmem hslot hphase).2.2
    exact absurd this (by intro hc; exact MState.noConfusion hc)

theorem cinv_reachable (fetch : Pending → Option CurbIDResponse) {s : CState}
    (h : CReachable fetch s) : CInv s := by
  induction h with
  | init rootID => exact cinv_init rootID
  | step hr hstep ih => exact cinv_step fetch hstep ih

theorem countInFlight_le_of_inv {s : CState} (h : CInv s) :
    countInFlight s ≤ 16 := by
  obtain ⟨h1, h2, h3⟩ := h
  by_cases hex : ∃ t, t ∈ s.tasks ∧ t.hasSlot = false ∧
      t.phase ≠ Phase.finished
  · obtain ⟨t, hmem, hslot, hph⟩ := hex
    obtain ⟨heq, -, -⟩ := h3 t hmem hslot hph
    have hle : countInFlight s ≤ s.tasks.length :=
      List.length_filter_le _ _
    have hlen : ([t] : List Task).length = 1 := rfl
    rw [heq, hlen] at hle
    exact hle.trans (by decide)
  · push_neg at hex
    have hmono : countInFlight s ≤ countSlotted s := by
      apply length_filter_mono
      intro a hmem hpa
      have hphase := of_decide_eq_true hpa
      cases hsl : a.hasSlot
      · have := hex a hmem hsl
        rw [hphase] at this
        exact absurd this (by intro hc; exact Phase.noConfusion hc)
      · rfl
    rw [← h1] at hmono
    exact hmono.trans h2

/-- C6 as stated is false: the state in which the root fetch's network
operation is in flight while zero admission slots are held is reachable
(initial state, then the root goroutine of line 164 — which never touches
`requestsChan` — starts its network operation), so it is not true that every
unit of work acquires an admission slot before starting its network
operation. -/
theorem c6_counterexample :
    CReachable (fun _ => none) c6state ∧
    c6state.tasks = [⟨"start", "ROOT", 0, Phase.inFlight, false⟩] ∧
    c6state.slots = 0 ∧ countInFlight c6state = 1 :=
  ⟨CReachable.step (CReachable.init "start")
      (CStep.taskStart [] [] ⟨"start", "ROOT", 0, Phase.spawned, false⟩ [] 0
        (MState.loop 1) emptyMap rfl),
    rfl, rfl, rfl⟩

/-- C6 amended: every unit of work except the root fetch acquires an
admission slot before it is spawned and releases it after its operation
completes; the root fetch acquires no slot, but whenever a slotless fetch is
in flight it is the only unit of work in the system, so in every reachable
state of the traversal at most 16 fetches are simultaneously in flight. -/
theorem c6_concurrency_cap (fetch : Pending → Option CurbIDResponse)
    (s : CState) (h : CReachable fetch s) :
    countInFlight s ≤ 16 ∧
    ∀ t ∈ s.tasks, t.phase = Phase.inFlight → t.hasSlot = false →
      s.tasks = [t] := by
  have hinv := cinv_reachable fetch h
  refine ⟨countInFlight_le_of_inv hinv, ?_⟩
  intro t hmem hph hslot
  exact (hinv.2.2 t hmem hslot
    (by rw [hph]; intro hc; exact Phase.noConfusion hc)).1

theorem c6_concurrency_cap_witness :
    countInFlight (cinit "start") ≤ 16 ∧
    ∀ t ∈ (cinit "start").tasks, t.phase = Phase.inFlight →
      t.hasSlot = false → (cinit "start").tasks = [t] :=
  c6_concurrency_cap (fun _ => none) (cinit "start") (CReachable.init "start")

end Curbside
